import Mathlib

/-!
Shallow embedding of the webserver-chan HTTP server core (TypeScript
sources: dynamic buffer, delimiter search and line splitting, request
parsing, header-field lookup, body readers, response encoding and the
per-connection serve loop).  Bytes are modelled as natural numbers, JS
strings as lists of characters, JS Buffers as lists of bytes.  Stateful
code is embedded by explicit state passing; source loops are embedded
with an explicit fuel argument (every theorem either supplies enough
fuel or takes successful termination as a hypothesis).  Fallible code
returns Except.
-/

namespace WebServer

/-- Characters of a Lean string literal, used to model JS strings. -/
def str (s : String) : List Char := s.data

/-- Bytes of an ASCII string literal, used to model JS Buffers. -/
def strB (s : String) : List Nat := s.data.map Char.toNat

/-- Models Buffer.toString with the latin1 encoding: one byte per
character.  On the ASCII inputs of this development it agrees with the
default utf8 decoding used by the source. -/
def bytesToChars (l : List Nat) : List Char := l.map Char.ofNat

/-- Models Buffer.from on a JS string (ASCII or latin1 data: one byte
per character). -/
def charsToBytes (l : List Char) : List Nat := l.map Char.toNat

/-- JS whitespace characters recognised by String.prototype.trim. -/
def jsWS (c : Char) : Bool :=
  c.toNat = 9 || c.toNat = 10 || c.toNat = 11 || c.toNat = 12 ||
  c.toNat = 13 || c.toNat = 32 || c.toNat = 160

/-- Models String.prototype.trim: strip whitespace from both ends. -/
def jsTrim (l : List Char) : List Char :=
  ((l.dropWhile jsWS).reverse.dropWhile jsWS).reverse

/-- Models String.prototype.toLowerCase on ASCII data. -/
def jsLower (l : List Char) : List Char :=
  l.map fun c => if 65 ≤ c.toNat ∧ c.toNat ≤ 90 then Char.ofNat (c.toNat + 32) else c

/-- Models String.prototype.split with a single-character separator:
keeps empty pieces and yields one empty piece for the empty string. -/
def jsSplitChar (sep : Char) : List Char → List (List Char)
  | [] => [[]]
  | c :: cs =>
    let r := jsSplitChar sep cs
    if c = sep then [] :: r
    else
      match r with
      | [] => [[c]]
      | x :: xs => (c :: x) :: xs

/-- Joins pieces with a separator, the way Array.prototype.join does:
no separator before the first or after the last piece. -/
def joinSep {α : Type} (sep : List α) : List (List α) → List α
  | [] => []
  | [x] => x
  | x :: xs => x ++ sep ++ joinSep sep xs

/-- Index of the first occurrence of pat inside l, scanning from the
front (the whole pattern must fit).  Models Buffer.indexOf relative to
a suffix. -/
def occIdx (pat : List Nat) : List Nat → Option Nat
  | [] => if pat = [] then some 0 else none
  | a :: l =>
    if pat.isPrefixOf (a :: l) then some 0
    else (occIdx pat l).map (· + 1)

/-- Models buf.indexOf(pat, start): the least absolute index at or past
start where pat occurs, none standing for the JS result -1. -/
def bufIndexOf (buf pat : List Nat) (start : Nat) : Option Nat :=
  (occIdx pat (buf.drop start)).map (· + start)

/-- The DynamicBuf record of types.ts: a storage Buffer (whose length is
the capacity) plus the number of bytes currently used. -/
structure DynamicBuf where
  data : List Nat
  length : Nat
deriving DecidableEq, Repr

/-- The capacity-doubling loop of expandBufferCap, with power fixed to 2
as at the only call site.  The fuel argument bounds the iteration count;
a fuel of newLength always suffices because cap starts at 32 or more. -/
def growCapAux : Nat → Nat → Nat → Nat
  | 0, cap, _ => cap
  | fuel + 1, cap, newLength => if cap < newLength then growCapAux fuel (cap * 2) newLength else cap

/-- Models expandBufferCap(buf, newLength, 2): doubles the capacity from
a floor of 32 until it reaches newLength and allocates a zeroed Buffer
of that size. -/
def expandBufferCap (buf : DynamicBuf) (newLength : Nat) : List Nat :=
  List.replicate (growCapAux newLength (max buf.data.length 32) newLength) 0

/-- Models src.copy(dst, offset, 0): overwrite dst starting at offset
with the bytes of src, truncating at the end of dst. -/
def bufCopy (src dst : List Nat) (offset : Nat) : List Nat :=
  dst.take offset ++ src.take (dst.length - offset) ++ dst.drop (offset + src.length)

/-- Models dst.copyWithin(0, start, fin): move the bytes in positions
from start up to fin to the front, leaving the tail unchanged. -/
def copyWithinFront (dst : List Nat) (start fin : Nat) : List Nat :=
  let seg := (dst.drop start).take (fin - start)
  seg ++ dst.drop seg.length

/-- Models bufferPush: grow the storage if needed, then copy the new
data in at offset buf.length and extend the used length. -/
def bufferPush (buf : DynamicBuf) (data : List Nat) : DynamicBuf :=
  let newLength := buf.length + data.length
  let storage :=
    if buf.data.length < newLength then bufCopy buf.data (expandBufferCap buf newLength) 0
    else buf.data
  { data := bufCopy data storage buf.length, length := newLength }

/-- Models bufferPop: shift the bytes past the first n to the front and
shrink the used length.  The source subtracts on JS numbers; claims
about pops are stated under the no-over-pop precondition, where the
truncated subtraction below agrees with the source. -/
def bufferPop (buf : DynamicBuf) (n : Nat) : DynamicBuf :=
  { data := copyWithinFront buf.data n buf.length, length := buf.length - n }

/-- One buffer operation, for stating the queue invariant. -/
inductive BufOp where
  | push (d : List Nat)
  | pop (n : Nat)
deriving DecidableEq, Repr

/-- Run a sequence of buffer operations. -/
def applyOps (buf : DynamicBuf) : List BufOp → DynamicBuf
  | [] => buf
  | .push d :: ops => applyOps (bufferPush buf d) ops
  | .pop n :: ops => applyOps (bufferPop buf n) ops

/-- The no-over-pop precondition: every pop removes at most the bytes
currently held. -/
def validOps (buf : DynamicBuf) : List BufOp → Bool
  | [] => true
  | .push d :: ops => validOps (bufferPush buf d) ops
  | .pop n :: ops => n ≤ buf.length && validOps (bufferPop buf n) ops

/-- The mathematical byte queue: push appends, pop drops from the front. -/
def queueRun (q : List Nat) : List BufOp → List Nat
  | [] => q
  | .push d :: ops => queueRun (q ++ d) ops
  | .pop n :: ops => queueRun (q.drop n) ops

/-- The largest queue length reached at any point while running the
operations from a queue of the given length. -/
def queueLens (cur : Nat) : List BufOp → Nat
  | [] => cur
  | .push d :: ops => max cur (queueLens (cur + d.length) ops)
  | .pop n :: ops => max cur (queueLens (cur - n) ops)

/-- Specification-side predicate: the pattern occurs in the buffer at
index i. -/
def occursAt (buf pat : List Nat) (i : Nat) : Prop := List.IsPrefix pat (buf.drop i)

/-- Models findDelimiter: the three indexOf scans and the switch that
prefers a CRLF found anywhere, then a bare CR, then a bare LF.  The JS
pair (-1, 0) is modelled as none; otherwise the result is the index and
the delimiter width. -/
def findDelimiter (buf : List Nat) (start : Nat) : Option (Nat × Nat) :=
  match bufIndexOf buf [13, 10] start with
  | some crlf => some (crlf, 2)
  | none =>
    match bufIndexOf buf [13] start with
    | some cr => some (cr, 1)
    | none =>
      match bufIndexOf buf [10] start with
      | some lf => some (lf, 1)
      | none => none

/-- The scanning loop of splitLines, with fuel bounding the number of
lines; buf.length + 1 always suffices since start strictly increases. -/
def splitLinesAux (buf : List Nat) : Nat → Nat → List (List Nat)
  | 0, _ => []
  | fuel + 1, start =>
    match findDelimiter buf start with
    | none =>
      let chunk := buf.drop start
      if chunk = [] then [] else [chunk]
    | some (next, delimOffset) =>
      ((buf.drop start).take (next - start)) :: splitLinesAux buf fuel (next + delimOffset)

/-- Models splitLines: split on CRLF, bare CR or bare LF, dropping a
final empty chunk. -/
def splitLines (buf : List Nat) : List (List Nat) :=
  splitLinesAux buf (buf.length + 1) 0

/-- Errors of the embedded server.  http models HTTPError(statusCode,
message); typeErr models a JS TypeError such as Buffer.from(undefined)
or calling a method on undefined; plain models a bare Error(message);
fuelOut marks exhaustion of the fuel given to an embedded loop. -/
inductive SrvError where
  | http (statusCode : Nat) (message : String)
  | typeErr
  | plain (message : String)
  | fuelOut
deriving DecidableEq, Repr

/-- The parsed request header of types.ts.  The version is an Option
because JS array destructuring leaves it undefined when the start line
has only two tokens. -/
structure HTTPReq where
  method : List Char
  uri : List Nat
  version : Option (List Char)
  headers : List (List Nat)
deriving DecidableEq, Repr

/-- Models parseRequestLine: split the line on single spaces and take
the first three tokens.  With a single token, Buffer.from(undefined)
throws a TypeError; with two, the version is left undefined; extra
tokens are ignored. -/
def parseRequestLine (reqLine : List Nat) : Except SrvError (List Char × List Nat × Option (List Char)) :=
  match jsSplitChar ' ' (bytesToChars reqLine) with
  | m :: u :: rest => .ok (m, charsToBytes u, rest.head?)
  | _ => .error .typeErr

/-- Token characters accepted by the node validateHeaderName check
(digits, letters, and the fifteen RFC 7230 token specials). -/
def isTokenChar (c : Char) : Bool :=
  let n := c.toNat
  (48 ≤ n && n ≤ 57) || (65 ≤ n && n ≤ 90) || (97 ≤ n && n ≤ 122) ||
  n = 33 || n = 35 || n = 36 || n = 37 || n = 38 || n = 39 || n = 42 ||
  n = 43 || n = 45 || n = 46 || n = 94 || n = 95 || n = 96 || n = 124 || n = 126

/-- Models node validateHeaderName: nonempty and all token characters. -/
def validHeaderName (name : List Char) : Bool :=
  !name.isEmpty && name.all isTokenChar

/-- Characters accepted in a header value by node validateHeaderValue:
horizontal tab, visible ASCII, and the high latin1 range. -/
def validValueChar (c : Char) : Bool :=
  let n := c.toNat
  n = 9 || (32 ≤ n && n ≤ 126) || (128 ≤ n && n ≤ 255)

/-- Models validateHeader: split the field on colons, trim the name,
rejoin the remaining tokens with commas (Array.join with no argument)
and trim, then apply the two node validators. -/
def validateHeader (headerField : List Nat) : Bool :=
  let fieldTokens := jsSplitChar ':' (bytesToChars headerField)
  let headerName := jsTrim (fieldTokens.headD [])
  let headerValue := jsTrim (joinSep (str ",") (fieldTokens.drop 1))
  validHeaderName headerName && headerValue.all validValueChar

/-- Models parseHTTPReq: split into lines, parse line 0 as the start
line, validate and keep lines 1 up to the second-to-last as header
fields.  The console.assert on the final empty line is non-fatal in
node and has no effect here.  An empty line list would make the source
read lines[0].toString() off undefined, a TypeError. -/
def parseHTTPReq (data : List Nat) : Except SrvError HTTPReq :=
  match splitLines data with
  | [] => .error .typeErr
  | l0 :: rest =>
    match parseRequestLine l0 with
    | .error e => .error e
    | .ok (method, uri, version) =>
      let hdrLines := (l0 :: rest).drop 1 |>.dropLast
      if hdrLines.all validateHeader then
        .ok { method := method, uri := uri, version := version, headers := hdrLines }
      else .error (.http 400 "Bad field.")

/-- The kMaxHeaderLen constant of data.ts. -/
def kMaxHeaderLen : Nat := 1824 * 8

/-- Models collectMessage: look for the CRLFCRLF header terminator in
the used part of the buffer; on failure enforce the header size limit,
otherwise parse the header block and pop it. -/
def collectMessage (buf : DynamicBuf) : Except SrvError (Option (HTTPReq × DynamicBuf)) :=
  match bufIndexOf (buf.data.take buf.length) [13, 10, 13, 10] 0 with
  | none =>
    if kMaxHeaderLen ≤ buf.length then .error (.http 413 "Header is too large.")
    else .ok none
  | some index =>
    match parseHTTPReq (buf.data.take (index + 4)) with
    | .error e => .error e
    | .ok msg => .ok (some (msg, bufferPop buf (index + 4)))

/-- The index loop of getField, which runs i from 1 while i is below
headers.length - 1, so the first and last entries are never examined.
The fuel starts at headers.length, which covers every iteration the
source loop can make.  A field without a colon that matches the key
would make the source call trim() on undefined, a TypeError. -/
def getFieldAux (headers : List (List Nat)) (key : List Char) : Nat → Nat → Except SrvError (Option (List Nat))
  | 0, _ => .ok none
  | fuel + 1, i =>
    if i + 1 < headers.length then
      let fieldTokens := jsSplitChar ':' (bytesToChars (headers.getD i []))
      let headerName := jsTrim (fieldTokens.headD [])
      if jsLower key = jsLower headerName then
        match fieldTokens[1]? with
        | some v => .ok (some (charsToBytes (jsTrim v)))
        | none => .error .typeErr
      else getFieldAux headers key fuel (i + 1)
    else .ok none

/-- Models getField: case-insensitive scan over the interior of the
header list, returning the first matching value. -/
def getField (headers : List (List Nat)) (key : List Char) : Except SrvError (Option (List Nat)) :=
  getFieldAux headers key headers.length 1

/-- Value of a character as a digit in the given base, if any. -/
def digitVal (base : Nat) (c : Char) : Option Nat :=
  let n := c.toNat
  if 48 ≤ n ∧ n ≤ 57 ∧ n - 48 < base then some (n - 48)
  else if base = 16 ∧ 65 ≤ n ∧ n ≤ 70 then some (n - 55)
  else if base = 16 ∧ 97 ≤ n ∧ n ≤ 102 then some (n - 87)
  else none

/-- Longest digit prefix of the characters, in the given base. -/
def digitsPrefix (base : Nat) : List Char → List Nat
  | [] => []
  | c :: r =>
    match digitVal base c with
    | some d => d :: digitsPrefix base r
    | none => []

/-- Models parseInt with no radix argument: trim leading whitespace,
read an optional sign, detect a 0x or 0X hex prefix, then take the
longest digit prefix; none models NaN when no digit is found. -/
def jsParseInt (s : List Char) : Option Int :=
  let t := s.dropWhile jsWS
  let sgn : Int := match t.head? with
    | some c => if c.toNat = 45 then -1 else 1
    | none => 1
  let t := match t.head? with
    | some c => if c.toNat = 45 || c.toNat = 43 then t.drop 1 else t
    | none => t
  match t with
  | c0 :: cx :: r =>
    if c0 = '0' ∧ (cx = 'x' ∨ cx = 'X') then
      match digitsPrefix 16 r with
      | [] => none
      | ds => some (sgn * (ds.foldl (fun a d => a * 16 + d) 0 : Nat))
  else
      match digitsPrefix 10 t with
      | [] => none
      | ds => some (sgn * (ds.foldl (fun a d => a * 10 + d) 0 : Nat))
  | _ =>
    match digitsPrefix 10 t with
    | [] => none
    | ds => some (sgn * (ds.foldl (fun a d => a * 10 + d) 0 : Nat))

/-- Internal state of a BodyReader.  connLength models the closure
variable remainingBodyLen of readerFromConnLength; memory models the
done flag of readerFromMemory. -/
inductive ReaderKind where
  | connLength (remaining : Nat)
  | memory (data : List Nat) (done : Bool)
deriving DecidableEq, Repr

/-- The BodyReader record of types.ts: the declared length (-1 when
unknown) and the state behind its read closure. -/
structure BodyReader where
  length : Int
  kind : ReaderKind
deriving DecidableEq, Repr

/-- Models readerFromConnLength(conn, buf, remainingBodyLen): the conn
and buf captured by the closure are passed explicitly at read time. -/
def readerFromConnLength (remainingBodyLen : Nat) : BodyReader :=
  { length := remainingBodyLen, kind := .connLength remainingBodyLen }

/-- Models readerFromMemory. -/
def readerFromMemory (data : List Nat) : BodyReader :=
  { length := data.length, kind := .memory data false }

/-- Models readerFromReq: parse Content-Length if present (400 when
parseInt gives NaN), compute the chunked flag, reject bodies on GET and
HEAD, and select the reader variant in source order. -/
def readerFromReq (req : HTTPReq) : Except SrvError BodyReader :=
  match getField req.headers (str "Content-Length") with
  | .error e => .error e
  | .ok contentLen =>
    let bodyLenE : Except SrvError Int :=
      match contentLen with
      | some v =>
        match jsParseInt (bytesToChars v) with
        | none => .error (.http 400 "Bad Content-Length.")
        | some n => .ok n
      | none => .ok (-1)
    match bodyLenE with
    | .error e => .error e
    | .ok bodyLen0 =>
      match getField req.headers (str "Transfer-Encoding") with
      | .error e => .error e
      | .ok te =>
        let chunked := te = some (strB "chunked")
        let bodyAllowed := ¬(req.method = str "GET" ∨ req.method = str "HEAD")
        if ¬bodyAllowed ∧ (0 < bodyLen0 ∨ chunked) then
          .error (.http 400 "HTTP body not allowed.")
        else
          let bodyLen := if ¬bodyAllowed then 0 else bodyLen0
          if 0 ≤ bodyLen then .ok (readerFromConnLength bodyLen.toNat)
          else if chunked then .error (.http 501 "TODO:")
          else .error (.http 501 "TODO:")

/-- The connection of the model: the chunks the peer will still
deliver.  socketRead yields them in order and then empty chunks forever
(the EOF behaviour of the source wrapper); transport errors are outside
the claims and not modelled. -/
structure Conn where
  chunks : List (List Nat)
deriving DecidableEq, Repr

/-- Models socketRead: next chunk, or empty at and after EOF. -/
def socketRead (conn : Conn) : List Nat × Conn :=
  match conn.chunks with
  | [] => ([], conn)
  | d :: rest => (d, ⟨rest⟩)

/-- Models one call of a BodyReader read closure, with the captured
conn and buf passed and returned explicitly.  For connLength: done when
remaining is 0; otherwise refill the buffer from the socket when empty,
failing on EOF; then consume min(buf.length, remaining) bytes.  For
memory: the data once, then empty. -/
def readBody (r : BodyReader) (conn : Conn) (buf : DynamicBuf) :
    Except SrvError (List Nat × BodyReader × Conn × DynamicBuf) :=
  match r.kind with
  | .memory data done =>
    if done then .ok ([], r, conn, buf)
    else .ok (data, { r with kind := .memory data true }, conn, buf)
  | .connLength remaining =>
    if remaining = 0 then .ok ([], r, conn, buf)
    else
      let step : Except SrvError (Conn × DynamicBuf) :=
        if buf.length = 0 then
          let (data, conn2) := socketRead conn
          let buf2 := bufferPush buf data
          if data.length = 0 then .error (.plain "Unexpected EOF from HTTP body")
          else .ok (conn2, buf2)
        else .ok (conn, buf)
      match step with
      | .error e => .error e
      | .ok (conn2, buf2) =>
        let howMuchToConsume := min buf2.length remaining
        .ok (buf2.data.take howMuchToConsume,
             { r with kind := .connLength (remaining - howMuchToConsume) },
             conn2, bufferPop buf2 howMuchToConsume)

/-- The HTTPRes record of types.ts. -/
structure HTTPRes where
  statusCode : Nat
  headers : List (List Nat)
  body : BodyReader
deriving DecidableEq, Repr

/-- Models handleReq: echo the request body for the /echo URI,
otherwise an in-memory hello-world body, with the fixed Server header
and status 200. -/
def handleReq (req : HTTPReq) (body : BodyReader) : HTTPRes :=
  let res := if req.uri = strB "/echo" then body else readerFromMemory (strB "hello world.\n")
  { statusCode := 200, headers := [strB "Server: my_first_http_server"], body := res }

/-- Models encodeHTTPRes: the status line from the fixed HTTP_VERSION
constant, then the header fields folded together with CRLF separators
(the reduce of the source, whose empty-list case would throw in JS and
is unreachable because writeHTTPRes always appends a header first). -/
def encodeHTTPRes (res : HTTPRes) : List Nat :=
  let delimiter := strB "\r\n"
  let statusLine := strB ("HTTP/1.1 " ++ toString res.statusCode)
  let joined :=
    match res.headers with
    | [] => []
    | b :: bs => bs.foldl (fun prev buf => prev ++ delimiter ++ buf) b
  statusLine ++ delimiter ++ joined

/-- The write loop of writeHTTPRes: read body chunks and emit each
nonempty one, stopping at the first empty chunk. -/
def writeBodyLoop : Nat → BodyReader → Conn → DynamicBuf → List (List Nat) →
    Except SrvError (BodyReader × Conn × DynamicBuf × List (List Nat))
  | 0, _, _, _, _ => .error .fuelOut
  | fuel + 1, r, conn, buf, out =>
    match readBody r conn buf with
    | .error e => .error e
    | .ok (data, r2, conn2, buf2) =>
      if data.length = 0 then .ok (r2, conn2, buf2, out)
      else writeBodyLoop fuel r2 conn2 buf2 (out ++ [data])

/-- Models writeHTTPRes: reject an unknown body length, evaluate the
console.assert argument (whose getField call can itself throw, though
the assert outcome is non-fatal in node), append the Content-Length
header, emit the encoded header block, then stream the body.  The
returned list holds the chunks passed to socketWrite, in order. -/
def writeHTTPRes (fuel : Nat) (conn : Conn) (buf : DynamicBuf) (res : HTTPRes) :
    Except SrvError (BodyReader × Conn × DynamicBuf × List (List Nat)) :=
  if res.body.length < 0 then .error (.plain "TODO: chunked encoding")
  else
    match getField res.headers (str "Content-Length") with
    | .error e => .error e
    | .ok _ =>
      let res2 := { res with headers := res.headers ++ [strB ("Content-Length: " ++ toString res.body.length)] }
      writeBodyLoop fuel res2.body conn buf [encodeHTTPRes res2]

/-- The drain loop of serveClient: read the request body until an empty
chunk comes back. -/
def drainLoop : Nat → BodyReader → Conn → DynamicBuf →
    Except SrvError (BodyReader × Conn × DynamicBuf)
  | 0, _, _, _ => .error .fuelOut
  | fuel + 1, r, conn, buf =>
    match readBody r conn buf with
    | .error e => .error e
    | .ok (data, r2, conn2, buf2) =>
      if data.length = 0 then .ok (r2, conn2, buf2)
      else drainLoop fuel r2 conn2 buf2

/-- Outcome of the serve loop: a clean close with the chunks written,
or an escaped error (handed to the outer handler in the source). -/
inductive ServeOut where
  | closed (out : List (List Nat))
  | failed (e : SrvError) (out : List (List Nat))
deriving DecidableEq, Repr

/-- Models the serveClient loop.  Each iteration tries to collect one
header block; without one it reads from the socket, closing cleanly on
EOF with an empty buffer and failing on EOF with leftover bytes.  With
a message it builds the body reader, dispatches, writes the response,
closes at once when the parsed version is 1.0, and otherwise drains the
request body and loops.  In the source the response body of the /echo
URI is the same object as the request body reader, so the drain uses
the post-write reader state exactly in that case. -/
def serveClientLoop : Nat → Conn → DynamicBuf → List (List Nat) → ServeOut
  | 0, _, _, out => .failed .fuelOut out
  | fuel + 1, conn, buf, out =>
    match collectMessage buf with
    | .error e => .failed e out
    | .ok none =>
      let (data, conn2) := socketRead conn
      let buf2 := bufferPush buf data
      if data.length = 0 ∧ buf2.length = 0 then .closed out
      else if data.length = 0 then .failed (.http 400 "Unexpected EOF.") out
      else serveClientLoop fuel conn2 buf2 out
    | .ok (some (msg, buf2)) =>
      match readerFromReq msg with
      | .error e => .failed e out
      | .ok reqBody =>
        match writeHTTPRes fuel conn buf2 (handleReq msg reqBody) with
        | .error e => .failed e out
        | .ok (rBody, conn2, buf3, wout) =>
          if msg.version = some (str "1.0") then .closed (out ++ wout)
          else
            let drainReader := if msg.uri = strB "/echo" then rBody else reqBody
            match drainLoop fuel drainReader conn2 buf3 with
            | .error e => .failed e (out ++ wout)
            | .ok (_, conn3, buf4) => serveClientLoop fuel conn3 buf4 (out ++ wout)

/-! Theorems. -/

/-- The reduce of encodeHTTPRes agrees with joining on the separator. -/
theorem foldl_concat_eq_joinSep (sep b : List Nat) (bs : List (List Nat)) :
    bs.foldl (fun prev buf => prev ++ sep ++ buf) b = joinSep sep (b :: bs) := by
  induction bs generalizing b with
  | nil => simp [joinSep]
  | cons x xs ih =>
    rw [List.foldl_cons, ih]
    cases xs with
    | nil => simp [joinSep]
    | cons y ys => simp [joinSep, List.append_assoc]

/-- Claim C3 (code bug): getField is documented and specified as a
case-insensitive lookup over every header field with first-match
semantics; the loop bounds in the source skip the first and the last
field, so a Content-Length present as the only field is not found at
all, while an interior field is found case-insensitively. -/
theorem getField_skips_first_and_last :
    getField [strB "Content-Length: 2"] (str "Content-Length") = .ok none ∧
    getField [strB "A: a", strB "Content-Length: 2", strB "B: b"] (str "content-length") =
      .ok (some (strB "2")) ∧
    getField [strB "A: a", strB "Content-Length: 2", strB "B: b"] (str "Content-Length") =
      .ok (some (strB "2")) :=
  ⟨rfl, rfl, rfl⟩

/-- Claim C1 (counterexample): on a response with status 200 and the
single header field X colon y, encodeHTTPRes yields the status line,
one CRLF and the header bytes, and that differs from the bytes the
claim requires, which end in a final CRLF. -/
theorem encode_res_single_header_no_final_crlf :
    encodeHTTPRes { statusCode := 200, headers := [strB "X: y"],
                    body := readerFromMemory (strB "hi") } = strB "HTTP/1.1 200\r\nX: y" ∧
    strB "HTTP/1.1 200\r\nX: y" ≠ strB "HTTP/1.1 200" ++ strB "\r\n" ++ strB "X: y" ++ strB "\r\n" := by
  exact ⟨rfl, by decide⟩

/-- Claim C4 (counterexample): in the bytes a LF b CR LF c the claim
says the first delimiter taken is the bare LF at offset 1 and the first
line is the single byte a; the source takes the CRLF at offset 3, so
the first line is a LF b. -/
theorem findDelimiter_crlf_priority_counterexample :
    findDelimiter (strB "a\nb\r\nc") 0 = some (3, 2) ∧
    splitLines (strB "a\nb\r\nc") = [strB "a\nb", strB "c"] ∧
    (splitLines (strB "a\nb\r\nc")).head? ≠ some (strB "a") := by
  refine ⟨rfl, rfl, by decide⟩

/-- Claim C2 (code bug): the source comment says the connection is to
be closed for HTTP/1.0, but parseRequestLine stores the whole version
token, so the comparison of msg.version with the literal 1.0 never
fires on a real HTTP/1.0 request: two pipelined HTTP/1.0 requests both
get served on one connection.  Only a start line whose third token is
literally 1.0 triggers the close-after-one-response branch. -/
theorem serveClient_http10_keepalive_bug :
    serveClientLoop 6 ⟨[]⟩
        { data := strB "GET / HTTP/1.0\r\nHost: a\r\n\r\nGET / HTTP/1.0\r\nHost: a\r\n\r\n",
          length := (strB "GET / HTTP/1.0\r\nHost: a\r\n\r\nGET / HTTP/1.0\r\nHost: a\r\n\r\n").length } [] =
      .closed [strB "HTTP/1.1 200\r\nServer: my_first_http_server\r\nContent-Length: 13",
               strB "hello world.\n",
               strB "HTTP/1.1 200\r\nServer: my_first_http_server\r\nContent-Length: 13",
               strB "hello world.\n"] ∧
    serveClientLoop 6 ⟨[]⟩
        { data := strB "GET / 1.0\r\nHost: a\r\n\r\nGET / 1.0\r\nHost: a\r\n\r\n",
          length := (strB "GET / 1.0\r\nHost: a\r\n\r\nGET / 1.0\r\nHost: a\r\n\r\n").length } [] =
      .closed [strB "HTTP/1.1 200\r\nServer: my_first_http_server\r\nContent-Length: 13",
               strB "hello world.\n"] :=
  ⟨rfl, rfl⟩

/-- Claim C5 (counterexample): a response whose header list already
holds a Content-Length field interior enough for getField to see it is
not rejected by writeHTTPRes; the console.assert is non-fatal, the
write succeeds, and the emitted header block carries two Content-Length
fields. -/
theorem writeHTTPRes_double_content_length_not_rejected :
    writeHTTPRes 3 ⟨[]⟩ ⟨[], 0⟩
        { statusCode := 200,
          headers := [strB "A: a", strB "Content-Length: 9", strB "B: b"],
          body := readerFromMemory (strB "x") } =
      .ok ({ length := 1, kind := .memory (strB "x") true }, ⟨[]⟩, ⟨[], 0⟩,
           [strB "HTTP/1.1 200\r\nA: a\r\nContent-Length: 9\r\nB: b\r\nContent-Length: 1",
            strB "x"]) :=
  rfl

/-- Claim C6 (counterexample): a header block whose start line splits
into four space-separated tokens does not fail to parse; parseHTTPReq
succeeds, keeping the first three tokens and dropping the rest. -/
theorem parseHTTPReq_four_token_start_line_succeeds :
    parseHTTPReq (strB "GET /a HTTP/1.1 x\r\nHost: a\r\n\r\n") =
      .ok { method := str "GET", uri := strB "/a", version := some (str "HTTP/1.1"),
            headers := [strB "Host: a"] } ∧
    ¬ ∃ e, parseHTTPReq (strB "GET /a HTTP/1.1 x\r\nHost: a\r\n\r\n") = .error e := by
  refine ⟨rfl, fun ⟨e, h⟩ => ?_⟩
  rw [show parseHTTPReq (strB "GET /a HTTP/1.1 x\r\nHost: a\r\n\r\n") =
        .ok { method := str "GET", uri := strB "/a", version := some (str "HTTP/1.1"),
              headers := [strB "Host: a"] } from rfl] at h
  exact Except.noConfusion h

/-- Claim C1 (amended): for every response with a non-empty header
list, encodeHTTPRes produces the status line, one CRLF, and the header
lines joined with CRLF, with no final CRLF appended; the block does not
end in a blank line. -/
theorem encodeHTTPRes_joins_headers_without_terminator :
    ∀ res : HTTPRes, res.headers ≠ [] →
      encodeHTTPRes res =
        strB ("HTTP/1.1 " ++ toString res.statusCode) ++ strB "\r\n" ++
          joinSep (strB "\r\n") res.headers := by
  intro res h
  cases hh : res.headers with
  | nil => exact absurd hh h
  | cons b bs =>
    unfold encodeHTTPRes
    rw [hh]
    simp only [foldl_concat_eq_joinSep]

/-- Claim C1 (witness): the amended statement evaluated on the
round-trip response of the spec, status 200 with one header X colon y. -/
theorem encodeHTTPRes_join_witness :
    encodeHTTPRes { statusCode := 200, headers := [strB "X: y"],
                    body := readerFromMemory (strB "hi") } =
      strB ("HTTP/1.1 " ++ toString (200 : Nat)) ++ strB "\r\n" ++
        joinSep (strB "\r\n") [strB "X: y"] :=
  encodeHTTPRes_joins_headers_without_terminator
    { statusCode := 200, headers := [strB "X: y"], body := readerFromMemory (strB "hi") }
    (by decide)

/-- The only failure parseRequestLine can produce is the TypeError of
Buffer.from on an undefined token. -/
theorem parseRequestLine_error_shape (l : List Nat) (e : SrvError)
    (h : parseRequestLine l = .error e) : e = .typeErr := by
  unfold parseRequestLine at h
  split at h
  · exact Except.noConfusion h
  · exact (Except.error.inj h).symm

/-- Claim C6 (amended): a header block whose first line splits into at
least two space-separated tokens parses successfully (the version being
left undefined when there are exactly two tokens, extra tokens being
dropped); with a single token parsing fails with a TypeError, not a
400-class error; and no parse failure is ever a 400 malformed start
line error, the only parse errors being the 400 bad-field error and the
TypeError. -/
theorem parseHTTPReq_start_line_behavior :
    (∀ (data : List Nat) (e : SrvError), parseHTTPReq data = .error e →
       e = .http 400 "Bad field." ∨ e = .typeErr) ∧
    parseHTTPReq (strB "GET /a\r\nHost: a\r\n\r\n") =
      .ok { method := str "GET", uri := strB "/a", version := none,
            headers := [strB "Host: a"] } ∧
    parseHTTPReq (strB "GETONLY\r\nHost: a\r\n\r\n") = .error .typeErr := by
  refine ⟨fun data e h => ?_, rfl, rfl⟩
  unfold parseHTTPReq at h
  split at h
  · exact Or.inr (Except.error.inj h).symm
  · split at h
    · next heq => exact Or.inr ((Except.error.inj h).symm.trans (parseRequestLine_error_shape _ _ heq))
    · simp only [] at h
      split at h
      · exact Except.noConfusion h
      · exact Or.inl (Except.error.inj h).symm

/-- Claim C6 (witness): the universally quantified part applied to a
block with a malformed header field, whose parse failure is the 400
bad-field error. -/
theorem parseHTTPReq_start_line_witness :
    parseHTTPReq (strB "GET / HTTP/1.1\r\nBad Field Name: x\r\n\r\n") =
      .error (.http 400 "Bad field.") ∧
    (SrvError.http 400 "Bad field." = .http 400 "Bad field." ∨
     SrvError.http 400 "Bad field." = .typeErr) :=
  ⟨rfl, parseHTTPReq_start_line_behavior.1 (strB "GET / HTTP/1.1\r\nBad Field Name: x\r\n\r\n")
          (.http 400 "Bad field.") rfl⟩

/-- The only failure getFieldAux can produce is the TypeError of
calling trim on the undefined value token of a colonless field. -/
theorem getFieldAux_error_shape :
    ∀ (fuel i : Nat) (headers : List (List Nat)) (key : List Char) (e : SrvError),
      getFieldAux headers key fuel i = .error e → e = .typeErr := by
  intro fuel
  induction fuel with
  | zero => intro i headers key e h; exact Except.noConfusion h
  | succ fuel ih =>
    intro i headers key e h
    unfold getFieldAux at h
    simp only [] at h
    split at h
    · split at h
      · split at h
        · exact Except.noConfusion h
        · exact (Except.error.inj h).symm
      · exact ih _ _ _ _ h
    · exact Except.noConfusion h

/-- The only failure getField can produce is the TypeError. -/
theorem getField_error_shape (headers : List (List Nat)) (key : List Char) (e : SrvError)
    (h : getField headers key = .error e) : e = .typeErr :=
  getFieldAux_error_shape _ _ _ _ _ h

/-- Claim C10: readerFromReq raises the 400 bad-Content-Length error
exactly when the lookup finds a value on which parseInt yields no
number at all; a value 5x is accepted as length 5 and a value -1 is not
rejected with 400 but falls past the fixed-length branch to the 501
unimplemented error. -/
theorem readerFromReq_bad_content_length_iff :
    (∀ req : HTTPReq,
       readerFromReq req = .error (.http 400 "Bad Content-Length.") ↔
       ∃ v, getField req.headers (str "Content-Length") = .ok (some v) ∧
            jsParseInt (bytesToChars v) = none) ∧
    readerFromReq { method := str "POST", uri := strB "/", version := some (str "HTTP/1.1"),
                    headers := [strB "A: a", strB "Content-Length: 5x", strB "B: b"] } =
      .ok (readerFromConnLength 5) ∧
    readerFromReq { method := str "POST", uri := strB "/", version := some (str "HTTP/1.1"),
                    headers := [strB "A: a", strB "Content-Length: -1", strB "B: b"] } =
      .error (.http 501 "TODO:") := by
  refine ⟨fun req => ⟨fun h => ?_, fun ⟨v, hg, hp⟩ => by simp [readerFromReq, hg, hp]⟩, rfl, rfl⟩
  rcases hgf : getField req.headers (str "Content-Length") with e | cl
  · have he := getField_error_shape _ _ _ hgf
    subst he
    simp [readerFromReq, hgf] at h
  · cases cl with
    | none =>
      rcases hte : getField req.headers (str "Transfer-Encoding") with e2 | te
      · have he := getField_error_shape _ _ _ hte
        subst he
        simp [readerFromReq, hgf, hte] at h
      · simp only [readerFromReq, hgf, hte] at h
        split at h
        · simp_all
        · split at h <;> simp_all
    | some v =>
      cases hp : jsParseInt (bytesToChars v) with
      | none => exact ⟨v, rfl, hp⟩
      | some n =>
        rcases hte : getField req.headers (str "Transfer-Encoding") with e2 | te
        · have he := getField_error_shape _ _ _ hte
          subst he
          simp [readerFromReq, hgf, hp, hte] at h
        · simp only [readerFromReq, hgf, hp, hte] at h
          split at h
          · simp_all
          · split at h
            · simp_all
            · split at h <;> simp_all

/-- Claim C10 (witness): the iff applied to a request whose interior
Content-Length value abc makes parseInt yield no number, so the 400 bad
Content-Length error is raised. -/
theorem readerFromReq_bad_cl_witness :
    readerFromReq { method := str "POST", uri := strB "/", version := some (str "HTTP/1.1"),
                    headers := [strB "A: a", strB "Content-Length: abc", strB "B: b"] } =
      .error (.http 400 "Bad Content-Length.") :=
  (readerFromReq_bad_content_length_iff.1
    { method := str "POST", uri := strB "/", version := some (str "HTTP/1.1"),
      headers := [strB "A: a", strB "Content-Length: abc", strB "B: b"] }).2
    ⟨strB "abc", rfl, rfl⟩

/-- Claim C8: body-reader selection order.  With the Content-Length
lookup result parsing to n (or n = -1 when absent) and the chunked flag
read from the Transfer-Encoding lookup: a GET or HEAD request with an
indicated body (positive length or chunked) fails with the 400
body-not-allowed error; a GET or HEAD request without one gets declared
length 0; otherwise a parsed non-negative length yields the fixed
length reader, and a negative (or absent) length yields the 501
unimplemented error whether or not the chunked flag is set; a length is
never silently guessed. -/
theorem readerFromReq_selection_order :
    ∀ (req : HTTPReq) (cl te : Option (List Nat)) (n : Int),
      getField req.headers (str "Content-Length") = .ok cl →
      getField req.headers (str "Transfer-Encoding") = .ok te →
      (match cl with
       | some v => jsParseInt (bytesToChars v)
       | none => some (-1)) = some n →
      (((req.method = str "GET" ∨ req.method = str "HEAD") →
          (0 < n ∨ te = some (strB "chunked")) →
          readerFromReq req = .error (.http 400 "HTTP body not allowed.")) ∧
       ((req.method = str "GET" ∨ req.method = str "HEAD") →
          ¬(0 < n) → te ≠ some (strB "chunked") →
          readerFromReq req = .ok (readerFromConnLength 0)) ∧
       (¬(req.method = str "GET" ∨ req.method = str "HEAD") → 0 ≤ n →
          readerFromReq req = .ok (readerFromConnLength n.toNat)) ∧
       (¬(req.method = str "GET" ∨ req.method = str "HEAD") → n < 0 →
          readerFromReq req = .error (.http 501 "TODO:"))) := by
  intro req cl te n hcl hte hn
  have hunf :
      readerFromReq req =
        (if ¬¬(req.method = str "GET" ∨ req.method = str "HEAD") ∧
            (0 < n ∨ te = some (strB "chunked")) then
           .error (.http 400 "HTTP body not allowed.")
         else
           if 0 ≤ (if ¬¬(req.method = str "GET" ∨ req.method = str "HEAD") then 0 else n) then
             .ok (readerFromConnLength
                   (if ¬¬(req.method = str "GET" ∨ req.method = str "HEAD") then 0 else n).toNat)
           else if te = some (strB "chunked") then .error (.http 501 "TODO:")
           else .error (.http 501 "TODO:")) := by
    cases cl with
    | none =>
      have hn' : n = -1 := by simpa using hn.symm
      subst hn'
      simp only [readerFromReq, hcl, hte]
    | some v =>
      have hp : jsParseInt (bytesToChars v) = some n := hn
      simp only [readerFromReq, hcl, hp, hte]
  rw [hunf]
  refine ⟨fun hd hcond => ?_, fun hd h1 h2 => ?_, fun hd h1 => ?_, fun hd h1 => ?_⟩
  · rw [if_pos ⟨not_not_intro hd, hcond⟩]
  · rw [if_neg fun hc => (hc.2.elim (fun c => h1 c) h2),
        if_pos (not_not_intro hd), if_pos le_rfl]
    rfl
  · have hbl : (if ¬¬(req.method = str "GET" ∨ req.method = str "HEAD") then (0 : Int) else n) = n :=
      if_neg fun hnn => hnn hd
    rw [if_neg fun hc => hc.1 hd, hbl, if_pos h1]
  · have hbl : (if ¬¬(req.method = str "GET" ∨ req.method = str "HEAD") then (0 : Int) else n) = n :=
      if_neg fun hnn => hnn hd
    rw [if_neg fun hc => hc.1 hd, hbl, if_neg (Int.not_le.mpr h1)]
    by_cases hc : te = some (strB "chunked")
    · rw [if_pos hc]
    · rw [if_neg hc]

/-- Claim C8 (witness): the selection order applied to five concrete
requests, one per selection case. -/
theorem readerFromReq_selection_witness :
    readerFromReq { method := str "GET", uri := strB "/", version := some (str "HTTP/1.1"),
                    headers := [strB "A: a", strB "Content-Length: 5", strB "B: b"] } =
      .error (.http 400 "HTTP body not allowed.") ∧
    readerFromReq { method := str "HEAD", uri := strB "/", version := some (str "HTTP/1.1"),
                    headers := [strB "A: a", strB "Transfer-Encoding: chunked", strB "B: b"] } =
      .error (.http 400 "HTTP body not allowed.") ∧
    readerFromReq { method := str "GET", uri := strB "/", version := some (str "HTTP/1.1"),
                    headers := [strB "A: a", strB "B: b"] } =
      .ok (readerFromConnLength 0) ∧
    readerFromReq { method := str "POST", uri := strB "/", version := some (str "HTTP/1.1"),
                    headers := [strB "A: a", strB "Content-Length: 5", strB "B: b"] } =
      .ok (readerFromConnLength 5) ∧
    readerFromReq { method := str "POST", uri := strB "/", version := some (str "HTTP/1.1"),
                    headers := [strB "A: a", strB "Transfer-Encoding: chunked", strB "B: b"] } =
      .error (.http 501 "TODO:") ∧
    readerFromReq { method := str "POST", uri := strB "/", version := some (str "HTTP/1.1"),
                    headers := [strB "A: a", strB "B: b"] } =
      .error (.http 501 "TODO:") :=
  ⟨(readerFromReq_selection_order
      { method := str "GET", uri := strB "/", version := some (str "HTTP/1.1"),
        headers := [strB "A: a", strB "Content-Length: 5", strB "B: b"] }
      (some (strB "5")) none 5 rfl rfl rfl).1 (Or.inl rfl) (Or.inl (by decide)),
   (readerFromReq_selection_order
      { method := str "HEAD", uri := strB "/", version := some (str "HTTP/1.1"),
        headers := [strB "A: a", strB "Transfer-Encoding: chunked", strB "B: b"] }
      none (some (strB "chunked")) (-1) rfl rfl rfl).1 (Or.inr rfl) (Or.inr rfl),
   (readerFromReq_selection_order
      { method := str "GET", uri := strB "/", version := some (str "HTTP/1.1"),
        headers := [strB "A: a", strB "B: b"] }
      none none (-1) rfl rfl rfl).2.1 (Or.inl rfl) (by decide) (by decide),
   (readerFromReq_selection_order
      { method := str "POST", uri := strB "/", version := some (str "HTTP/1.1"),
        headers := [strB "A: a", strB "Content-Length: 5", strB "B: b"] }
      (some (strB "5")) none 5 rfl rfl rfl).2.2.1 (by decide) (by decide),
   (readerFromReq_selection_order
      { method := str "POST", uri := strB "/", version := some (str "HTTP/1.1"),
        headers := [strB "A: a", strB "Transfer-Encoding: chunked", strB "B: b"] }
      none (some (strB "chunked")) (-1) rfl rfl rfl).2.2.2 (by decide) (by decide),
   (readerFromReq_selection_order
      { method := str "POST", uri := strB "/", version := some (str "HTTP/1.1"),
        headers := [strB "A: a", strB "B: b"] }
      none none (-1) rfl rfl rfl).2.2.2 (by decide) (by decide)⟩

/-- Claim C7: behaviour of one read of a fixed-length body reader.
With remaining 0 every read returns empty and leaves the state
unchanged, so reads return empty forever.  With remaining positive and
data buffered, the read returns exactly min(buffered length, remaining)
bytes, the prefix of the buffered content, and decrements remaining by
that amount.  With an empty buffer the reader first pulls a chunk from
the channel, consuming from it likewise, and fails with the unexpected
EOF error when the channel is exhausted.  On a reader of declared
length 5 over a buffer already holding hello, one read returns hello
and the next returns empty. -/
theorem readerFromConnLength_read_behavior :
    (∀ (L : Int) (conn : Conn) (buf : DynamicBuf),
       readBody ⟨L, .connLength 0⟩ conn buf = .ok ([], ⟨L, .connLength 0⟩, conn, buf)) ∧
    (∀ (L : Int) (rem : Nat) (conn : Conn) (buf : DynamicBuf),
       0 < rem → 0 < buf.length → buf.length ≤ buf.data.length →
       readBody ⟨L, .connLength rem⟩ conn buf =
         .ok ((buf.data.take buf.length).take (min buf.length rem),
              ⟨L, .connLength (rem - min buf.length rem)⟩, conn,
              bufferPop buf (min buf.length rem))) ∧
    (∀ (L : Int) (rem : Nat) (d : List Nat) (rest : List (List Nat)) (buf : DynamicBuf),
       0 < rem → buf.length = 0 → d ≠ [] →
       readBody ⟨L, .connLength rem⟩ ⟨d :: rest⟩ buf =
         .ok ((bufferPush buf d).data.take (min (bufferPush buf d).length rem),
              ⟨L, .connLength (rem - min (bufferPush buf d).length rem)⟩, ⟨rest⟩,
              bufferPop (bufferPush buf d) (min (bufferPush buf d).length rem))) ∧
    (∀ (L : Int) (rem : Nat) (buf : DynamicBuf),
       0 < rem → buf.length = 0 →
       readBody ⟨L, .connLength rem⟩ ⟨[]⟩ buf = .error (.plain "Unexpected EOF from HTTP body")) ∧
    (readBody (readerFromConnLength 5) ⟨[]⟩ ⟨strB "hello", 5⟩ =
       .ok (strB "hello", { length := 5, kind := .connLength 0 }, ⟨[]⟩, ⟨strB "hello", 0⟩) ∧
     readBody { length := 5, kind := .connLength 0 } ⟨[]⟩ ⟨strB "hello", 0⟩ =
       .ok ([], { length := 5, kind := .connLength 0 }, ⟨[]⟩, ⟨strB "hello", 0⟩)) := by
  refine ⟨fun L conn buf => rfl, ?_, ?_, ?_, rfl, rfl⟩
  · intro L rem conn buf h1 h2 hwf
    have hr0 : ¬(rem = 0) := by omega
    have hb0 : ¬(buf.length = 0) := by omega
    have ht : (buf.data.take buf.length).take (min buf.length rem) =
        buf.data.take (min buf.length rem) := by
      rw [List.take_take]
      congr 1
      omega
    simp [readBody, hr0, hb0, ht]
  · intro L rem d rest buf h1 hb hd
    have hr0 : ¬(rem = 0) := by omega
    have hdl : ¬(d.length = 0) := fun h => hd (List.length_eq_zero.mp h)
    simp [readBody, hr0, hb, socketRead, hdl]
  · intro L rem buf h1 hb
    have hr0 : ¬(rem = 0) := by omega
    simp [readBody, hr0, hb, socketRead]

/-- Claim C7 (witness): the general read cases applied at concrete
states: remaining 0 on an arbitrary buffer, five remaining bytes with
the bytes of hi buffered, a refill from a channel chunk, and the
unexpected EOF failure. -/
theorem readerFromConnLength_read_witness :
    readBody ⟨5, .connLength 0⟩ ⟨[]⟩ ⟨strB "hi", 2⟩ =
      .ok ([], ⟨5, .connLength 0⟩, ⟨[]⟩, ⟨strB "hi", 2⟩) ∧
    readBody ⟨2, .connLength 2⟩ ⟨[]⟩ ⟨strB "hi", 2⟩ =
      .ok ((((strB "hi").take 2).take (min 2 2)),
           ⟨2, .connLength (2 - min 2 2)⟩, ⟨[]⟩, bufferPop ⟨strB "hi", 2⟩ (min 2 2)) ∧
    readBody ⟨3, .connLength 3⟩ ⟨[strB "ab"]⟩ ⟨[], 0⟩ =
      .ok ((bufferPush ⟨[], 0⟩ (strB "ab")).data.take (min (bufferPush ⟨[], 0⟩ (strB "ab")).length 3),
           ⟨3, .connLength (3 - min (bufferPush ⟨[], 0⟩ (strB "ab")).length 3)⟩, ⟨[]⟩,
           bufferPop (bufferPush ⟨[], 0⟩ (strB "ab")) (min (bufferPush ⟨[], 0⟩ (strB "ab")).length 3)) ∧
    readBody ⟨3, .connLength 3⟩ ⟨[]⟩ ⟨[], 0⟩ = .error (.plain "Unexpected EOF from HTTP body") :=
  ⟨readerFromConnLength_read_behavior.1 5 ⟨[]⟩ ⟨strB "hi", 2⟩,
   readerFromConnLength_read_behavior.2.1 2 2 ⟨[]⟩ ⟨strB "hi", 2⟩ (by decide) (by decide) (by decide),
   readerFromConnLength_read_behavior.2.2.1 3 3 (strB "ab") [] ⟨[], 0⟩ (by decide) rfl (by decide),
   readerFromConnLength_read_behavior.2.2.2.1 3 3 ⟨[], 0⟩ (by decide) rfl⟩

/-- The write loop only appends to the chunks already emitted. -/
theorem writeBodyLoop_out_extends :
    ∀ (fuel : Nat) (r : BodyReader) (conn : Conn) (buf : DynamicBuf) (out : List (List Nat))
      (r2 : BodyReader) (c2 : Conn) (b2 : DynamicBuf) (out2 : List (List Nat)),
      writeBodyLoop fuel r conn buf out = .ok (r2, c2, b2, out2) →
      ∃ extra, out2 = out ++ extra := by
  intro fuel
  induction fuel with
  | zero => intro r conn buf out r2 c2 b2 out2 h; exact Except.noConfusion h
  | succ fuel ih =>
    intro r conn buf out r2 c2 b2 out2 h
    unfold writeBodyLoop at h
    split at h
    · exact Except.noConfusion h
    · split at h
      · have hout := congrArg (fun p => p.2.2.2) (Except.ok.inj h)
        exact ⟨[], by simpa using hout.symm⟩
      · obtain ⟨extra, hx⟩ := ih _ _ _ _ _ _ _ _ h
        exact ⟨_ :: extra, by rw [hx, List.append_assoc]; rfl⟩

/-- Claim C5 (amended): whenever writeHTTPRes succeeds, the first chunk
written is the encoding of the response with exactly one Content-Length
header, equal to the declared body length, appended after the existing
headers; a pre-existing Content-Length field is only checked by a
non-fatal console assertion, so the write is not rejected and the block
then carries two Content-Length fields. -/
theorem writeHTTPRes_appends_one_content_length :
    ∀ (fuel : Nat) (conn : Conn) (buf : DynamicBuf) (res : HTTPRes)
      (r2 : BodyReader) (c2 : Conn) (b2 : DynamicBuf) (wout : List (List Nat)),
      writeHTTPRes fuel conn buf res = .ok (r2, c2, b2, wout) →
      wout.head? = some (encodeHTTPRes
        { res with headers :=
            res.headers ++ [strB ("Content-Length: " ++ toString res.body.length)] }) := by
  intro fuel conn buf res r2 c2 b2 wout h
  unfold writeHTTPRes at h
  split at h
  · exact Except.noConfusion h
  · simp only [] at h
    split at h
    · exact Except.noConfusion h
    · obtain ⟨extra, hx⟩ := writeBodyLoop_out_extends _ _ _ _ _ _ _ _ _ h
      rw [hx]
      rfl

/-- Claim C5 (witness): the amended statement evaluated on the
round-trip response of the spec, one header X colon y and the in-memory
body hi of length 2, whose write emits the header block and injects
Content-Length 2 exactly once. -/
theorem writeHTTPRes_append_witness :
    [strB "HTTP/1.1 200\r\nX: y\r\nContent-Length: 2", strB "hi"].head? =
      some (encodeHTTPRes
        { statusCode := 200, headers := [strB "X: y", strB "Content-Length: 2"],
          body := readerFromMemory (strB "hi") }) :=
  writeHTTPRes_appends_one_content_length 3 ⟨[]⟩ ⟨[], 0⟩
    { statusCode := 200, headers := [strB "X: y"], body := readerFromMemory (strB "hi") }
    ⟨2, .memory (strB "hi") true⟩ ⟨[]⟩ ⟨[], 0⟩
    [strB "HTTP/1.1 200\r\nX: y\r\nContent-Length: 2", strB "hi"] rfl

/-- A found occurrence index is a real occurrence. -/
theorem occIdx_found :
    ∀ (l pat : List Nat) (j : Nat), occIdx pat l = some j → List.IsPrefix pat (l.drop j) := by
  intro l
  induction l with
  | nil =>
    intro pat j h
    unfold occIdx at h
    split at h
    · next hp =>
      cases Option.some.inj h
      simp [hp]
    · exact Option.noConfusion h
  | cons a l ih =>
    intro pat j h
    unfold occIdx at h
    split at h
    · next hp =>
      cases Option.some.inj h
      simpa using List.isPrefixOf_iff_prefix.mp hp
    · next hp =>
      obtain ⟨j2, hj2, rfl⟩ := Option.map_eq_some'.mp h
      simpa [List.drop_succ_cons] using ih pat j2 hj2

/-- No occurrence lies strictly before the found occurrence index. -/
theorem occIdx_min :
    ∀ (l pat : List Nat) (j : Nat), occIdx pat l = some j →
      ∀ m, m < j → ¬ List.IsPrefix pat (l.drop m) := by
  intro l
  induction l with
  | nil =>
    intro pat j h m hm
    unfold occIdx at h
    split at h
    · cases Option.some.inj h
      omega
    · exact Option.noConfusion h
  | cons a l ih =>
    intro pat j h m hm
    unfold occIdx at h
    split at h
    · cases Option.some.inj h
      omega
    · next hp =>
      obtain ⟨j2, hj2, rfl⟩ := Option.map_eq_some'.mp h
      cases m with
      | zero =>
        intro hpre
        have hb := List.isPrefixOf_iff_prefix.mpr (by simpa using hpre : List.IsPrefix pat (a :: l))
        exact hp hb
      | succ m2 =>
        simpa [List.drop_succ_cons] using ih pat j2 hj2 m2 (by omega)

/-- Any occurrence guarantees the scan finds one at or before it. -/
theorem occIdx_exists :
    ∀ (l pat : List Nat) (i : Nat), List.IsPrefix pat (l.drop i) →
      ∃ j, occIdx pat l = some j ∧ j ≤ i := by
  intro l
  induction l with
  | nil =>
    intro pat i h
    rw [List.drop_nil] at h
    exact ⟨0, by simp [occIdx, List.eq_nil_of_prefix_nil h], Nat.zero_le i⟩
  | cons a l ih =>
    intro pat i h
    by_cases hp : pat.isPrefixOf (a :: l)
    · exact ⟨0, by simp [occIdx, hp], Nat.zero_le i⟩
    · cases i with
      | zero =>
        have hb := List.isPrefixOf_iff_prefix.mpr (by simpa using h : List.IsPrefix pat (a :: l))
        exact absurd hb hp
      | succ i2 =>
        rw [List.drop_succ_cons] at h
        obtain ⟨j2, hj2, hle⟩ := ih pat i2 h
        exact ⟨j2 + 1, by simp [occIdx, hp, hj2], by omega⟩

/-- What a successful indexOf scan means: the result is at or past the
start, it is an occurrence, and it is the first occurrence at or past
the start. -/
theorem bufIndexOf_some_spec (buf pat : List Nat) (start j : Nat)
    (h : bufIndexOf buf pat start = some j) :
    start ≤ j ∧ occursAt buf pat j ∧ ∀ m, start ≤ m → m < j → ¬ occursAt buf pat m := by
  unfold bufIndexOf at h
  obtain ⟨j2, hj2, rfl⟩ := Option.map_eq_some'.mp h
  refine ⟨by omega, ?_, ?_⟩
  · have hpre := occIdx_found _ _ _ hj2
    rw [List.drop_drop] at hpre
    unfold occursAt
    rw [Nat.add_comm j2 start]
    exact hpre
  · intro m hm1 hm2 hocc
    have hpre : List.IsPrefix pat ((buf.drop start).drop (m - start)) := by
      rw [List.drop_drop, Nat.add_sub_cancel' hm1]
      exact hocc
    exact occIdx_min _ _ _ hj2 (m - start) (by omega) hpre

/-- Any occurrence at or past the start makes the scan succeed at or
before it. -/
theorem bufIndexOf_some_of_occurs (buf pat : List Nat) (start i : Nat)
    (h1 : start ≤ i) (h2 : occursAt buf pat i) :
    ∃ j, bufIndexOf buf pat start = some j ∧ j ≤ i := by
  have hpre : List.IsPrefix pat ((buf.drop start).drop (i - start)) := by
    rw [List.drop_drop, Nat.add_sub_cancel' h1]
    exact h2
  obtain ⟨j2, hj2, hle⟩ := occIdx_exists _ _ _ hpre
  exact ⟨j2 + start, by simp [bufIndexOf, hj2], by omega⟩

/-- With no occurrence at or past the start, the scan fails. -/
theorem bufIndexOf_none_of_no_occurs (buf pat : List Nat) (start : Nat)
    (h : ∀ i, start ≤ i → ¬ occursAt buf pat i) : bufIndexOf buf pat start = none := by
  cases hb : bufIndexOf buf pat start with
  | none => rfl
  | some j =>
    obtain ⟨hj1, hj2, _⟩ := bufIndexOf_some_spec _ _ _ _ hb
    exact absurd hj2 (h j hj1)

/-- Claim C4 (amended): delimiter priority is by kind, not by position.
If a CRLF occurs anywhere at or past the scan position, findDelimiter
consumes the first CRLF as a 2-byte delimiter, even when a bare CR or
LF occurs earlier; with no CRLF in range, the first bare CR wins over
any earlier bare LF; only with neither is the first bare LF taken.  In
the bytes a LF b CR LF c the first delimiter taken is hence the CRLF at
offset 3, and in a LF b CR c it is the CR at offset 3, not the earlier
LF at offset 1. -/
theorem findDelimiter_priority_order :
    (∀ (buf : List Nat) (start i : Nat), start ≤ i → occursAt buf (strB "\r\n") i →
       ∃ j, start ≤ j ∧ j ≤ i ∧ occursAt buf (strB "\r\n") j ∧
            (∀ m, start ≤ m → m < j → ¬ occursAt buf (strB "\r\n") m) ∧
            findDelimiter buf start = some (j, 2)) ∧
    (∀ (buf : List Nat) (start : Nat), (∀ i, start ≤ i → ¬ occursAt buf (strB "\r\n") i) →
       ∀ i, start ≤ i → occursAt buf (strB "\r") i →
       ∃ j, start ≤ j ∧ j ≤ i ∧ occursAt buf (strB "\r") j ∧
            findDelimiter buf start = some (j, 1)) ∧
    (∀ (buf : List Nat) (start : Nat), (∀ i, start ≤ i → ¬ occursAt buf (strB "\r\n") i) →
       (∀ i, start ≤ i → ¬ occursAt buf (strB "\r") i) →
       ∀ i, start ≤ i → occursAt buf (strB "\n") i →
       ∃ j, start ≤ j ∧ j ≤ i ∧ occursAt buf (strB "\n") j ∧
            findDelimiter buf start = some (j, 1)) ∧
    findDelimiter (strB "a\nb\rc") 0 = some (3, 1) ∧
    findDelimiter (strB "a\rb\nc") 0 = some (1, 1) := by
  have ecrlf : strB "\r\n" = [13, 10] := rfl
  have ecr : strB "\r" = [13] := rfl
  have elf : strB "\n" = [10] := rfl
  refine ⟨?_, ?_, ?_, rfl, rfl⟩
  · intro buf start i h1 h2
    rw [ecrlf] at h2 ⊢
    obtain ⟨j, hj, hle⟩ := bufIndexOf_some_of_occurs buf [13, 10] start i h1 h2
    obtain ⟨hs, hocc, hmin⟩ := bufIndexOf_some_spec _ _ _ _ hj
    exact ⟨j, hs, hle, hocc, hmin, by simp [findDelimiter, hj]⟩
  · intro buf start hno i h1 h2
    rw [ecr] at h2 ⊢
    have hnone : bufIndexOf buf [13, 10] start = none :=
      bufIndexOf_none_of_no_occurs _ _ _ (by simpa [ecrlf] using hno)
    obtain ⟨j, hj, hle⟩ := bufIndexOf_some_of_occurs buf [13] start i h1 h2
    obtain ⟨hs, hocc, _⟩ := bufIndexOf_some_spec _ _ _ _ hj
    exact ⟨j, hs, hle, hocc, by simp [findDelimiter, hnone, hj]⟩
  · intro buf start hno1 hno2 i h1 h2
    rw [elf] at h2 ⊢
    have hnone1 : bufIndexOf buf [13, 10] start = none :=
      bufIndexOf_none_of_no_occurs _ _ _ (by simpa [ecrlf] using hno1)
    have hnone2 : bufIndexOf buf [13] start = none :=
      bufIndexOf_none_of_no_occurs _ _ _ (by simpa [ecr] using hno2)
    obtain ⟨j, hj, hle⟩ := bufIndexOf_some_of_occurs buf [10] start i h1 h2
    obtain ⟨hs, hocc, _⟩ := bufIndexOf_some_spec _ _ _ _ hj
    exact ⟨j, hs, hle, hocc, by simp [findDelimiter, hnone1, hnone2, hj]⟩

/-- Claim C4 (witness): the CRLF-anywhere case applied to the bytes a
LF b CR LF c from scan position 0, locating the CRLF at offset 3. -/
theorem findDelimiter_priority_witness :
    ∃ j, 0 ≤ j ∧ j ≤ 3 ∧ occursAt (strB "a\nb\r\nc") (strB "\r\n") j ∧
         (∀ m, 0 ≤ m → m < j → ¬ occursAt (strB "a\nb\r\nc") (strB "\r\n") m) ∧
         findDelimiter (strB "a\nb\r\nc") 0 = some (j, 2) :=
  findDelimiter_priority_order.1 (strB "a\nb\r\nc") 0 3 (by omega) ⟨strB "c", rfl⟩

/-- A copy into a buffer never changes its allocated size. -/
theorem bufCopy_length (src dst : List Nat) (off : Nat) :
    (bufCopy src dst off).length = dst.length := by
  simp [bufCopy]
  omega

/-- A copy-within never changes the allocated size. -/
theorem copyWithinFront_length (dst : List Nat) (start fin : Nat) :
    (copyWithinFront dst start fin).length = dst.length := by
  simp [copyWithinFront]

/-- A copy at offset zero into a large enough buffer lays down the
source followed by the tail of the destination. -/
theorem bufCopy_zero (src dst : List Nat) (h : src.length ≤ dst.length) :
    bufCopy src dst 0 = src ++ dst.drop src.length := by
  simp [bufCopy, List.take_of_length_le h]

/-- The doubling loop yields the starting capacity times a power of 2. -/
theorem growCapAux_pow : ∀ (fuel cap n : Nat), ∃ k, growCapAux fuel cap n = cap * 2 ^ k := by
  intro fuel
  induction fuel with
  | zero => intro cap n; exact ⟨0, by simp [growCapAux]⟩
  | succ fuel ih =>
    intro cap n
    unfold growCapAux
    split
    · obtain ⟨k, hk⟩ := ih (cap * 2) n
      exact ⟨k + 1, by rw [hk]; ring⟩
    · exact ⟨0, by simp⟩

/-- The doubling loop never shrinks the capacity. -/
theorem growCapAux_le_self : ∀ (fuel cap n : Nat), cap ≤ growCapAux fuel cap n := by
  intro fuel
  induction fuel with
  | zero => intro cap n; simp [growCapAux]
  | succ fuel ih =>
    intro cap n
    unfold growCapAux
    split
    · exact le_trans (by omega) (ih (cap * 2) n)
    · exact le_rfl

/-- With positive capacity and enough fuel, the doubling loop reaches
the requested size. -/
theorem growCapAux_reaches : ∀ (fuel cap n : Nat), 1 ≤ cap → n ≤ cap + fuel →
    n ≤ growCapAux fuel cap n := by
  intro fuel
  induction fuel with
  | zero => intro cap n h1 h2; simpa [growCapAux] using h2
  | succ fuel ih =>
    intro cap n h1 h2
    unfold growCapAux
    split
    · exact ih (cap * 2) n (by omega) (by omega)
    · next h => omega

/-- Size of the buffer allocated by expandBufferCap. -/
theorem expandBufferCap_length (buf : DynamicBuf) (n : Nat) :
    (expandBufferCap buf n).length = growCapAux n (max buf.data.length 32) n := by
  simp [expandBufferCap]

/-- The expanded capacity reaches the requested size. -/
theorem expandBufferCap_ge (buf : DynamicBuf) (n : Nat) :
    n ≤ (expandBufferCap buf n).length := by
  rw [expandBufferCap_length]
  exact growCapAux_reaches n (max buf.data.length 32) n (by omega) (by omega)

/-- The expanded capacity is at least the old capacity. -/
theorem expandBufferCap_ge_old (buf : DynamicBuf) (n : Nat) :
    buf.data.length ≤ (expandBufferCap buf n).length := by
  rw [expandBufferCap_length]
  exact le_trans (Nat.le_max_left _ _) (growCapAux_le_self n (max buf.data.length 32) n)

/-- Growing a capacity that is zero or a power-of-two multiple of the
32-byte floor yields a power-of-two multiple of the floor. -/
theorem expandBufferCap_form (buf : DynamicBuf) (n : Nat)
    (h : buf.data.length = 0 ∨ ∃ k, buf.data.length = 32 * 2 ^ k) :
    ∃ k, (expandBufferCap buf n).length = 32 * 2 ^ k := by
  rw [expandBufferCap_length]
  obtain h0 | ⟨j, hj⟩ := h
  · rw [h0]
    obtain ⟨k, hk⟩ := growCapAux_pow n (max 0 32) n
    exact ⟨k, by simpa using hk⟩
  · rw [hj]
    have hmax : max (32 * 2 ^ j) 32 = 32 * 2 ^ j :=
      Nat.max_eq_left (Nat.le_mul_of_pos_right 32 (Nat.pos_pow_of_pos j (by omega)))
    rw [hmax]
    obtain ⟨k, hk⟩ := growCapAux_pow n (32 * 2 ^ j) n
    exact ⟨j + k, by rw [hk, Nat.mul_assoc, ← pow_add]⟩

/-- The used length after a push. -/
theorem bufferPush_length (buf : DynamicBuf) (d : List Nat) :
    (bufferPush buf d).length = buf.length + d.length := rfl

/-- After a push the capacity covers the new used length. -/
theorem bufferPush_cap_ge (buf : DynamicBuf) (d : List Nat) :
    buf.length + d.length ≤ (bufferPush buf d).data.length := by
  unfold bufferPush
  simp only []
  rw [bufCopy_length]
  split
  · rw [bufCopy_length]
    exact expandBufferCap_ge buf (buf.length + d.length)
  · next h => omega

/-- A push never shrinks the capacity. -/
theorem bufferPush_cap_mono (buf : DynamicBuf) (d : List Nat) :
    buf.data.length ≤ (bufferPush buf d).data.length := by
  unfold bufferPush
  simp only []
  rw [bufCopy_length]
  split
  · rw [bufCopy_length]
    exact expandBufferCap_ge_old buf (buf.length + d.length)
  · exact le_rfl

/-- A push keeps the capacity zero or a power-of-two multiple of 32. -/
theorem bufferPush_cap_form (buf : DynamicBuf) (d : List Nat)
    (h : buf.data.length = 0 ∨ ∃ k, buf.data.length = 32 * 2 ^ k) :
    (bufferPush buf d).data.length = 0 ∨ ∃ k, (bufferPush buf d).data.length = 32 * 2 ^ k := by
  unfold bufferPush
  simp only []
  rw [bufCopy_length]
  split
  · rw [bufCopy_length]
    exact Or.inr (expandBufferCap_form buf (buf.length + d.length) h)
  · exact h

/-- The content after a push is the old content followed by the pushed
bytes. -/
theorem bufferPush_content (buf : DynamicBuf) (d : List Nat)
    (hwf : buf.length ≤ buf.data.length) :
    (bufferPush buf d).data.take (buf.length + d.length) = buf.data.take buf.length ++ d := by
  unfold bufferPush
  simp only []
  set s := (if buf.data.length < buf.length + d.length then
      bufCopy buf.data (expandBufferCap buf (buf.length + d.length)) 0
    else buf.data) with hs
  have h1 : buf.length + d.length ≤ s.length := by
    rw [hs]
    split
    · rw [bufCopy_length]
      exact expandBufferCap_ge buf (buf.length + d.length)
    · next h => omega
  have h2 : s.take buf.length = buf.data.take buf.length := by
    rw [hs]
    split
    · next h =>
      rw [bufCopy_zero buf.data _ (expandBufferCap_ge_old buf (buf.length + d.length))]
      exact List.take_append_of_le_length hwf
    · rfl
  unfold bufCopy
  have hd : d.take (s.length - buf.length) = d := List.take_of_length_le (by omega)
  rw [hd, List.append_assoc]
  have hlen : (s.take buf.length).length = buf.length := by
    rw [List.length_take]
    omega
  rw [List.take_append_eq_append_take]
  rw [hlen]
  rw [List.take_of_length_le (by rw [hlen]; omega :
        (s.take buf.length).length ≤ buf.length + d.length)]
  rw [Nat.add_sub_cancel_left]
  rw [List.take_left]
  rw [h2]

/-- The used length after a pop. -/
theorem bufferPop_length (buf : DynamicBuf) (n : Nat) :
    (bufferPop buf n).length = buf.length - n := rfl

/-- A pop never changes the capacity. -/
theorem bufferPop_cap (buf : DynamicBuf) (n : Nat) :
    (bufferPop buf n).data.length = buf.data.length :=
  copyWithinFront_length buf.data n buf.length

/-- The content after a no-over-pop pop is the old content with the
first n bytes dropped. -/
theorem bufferPop_content (buf : DynamicBuf) (n : Nat)
    (hn : n ≤ buf.length) (hwf : buf.length ≤ buf.data.length) :
    (bufferPop buf n).data.take (buf.length - n) = (buf.data.take buf.length).drop n := by
  unfold bufferPop copyWithinFront
  simp only []
  have hseg : ((buf.data.drop n).take (buf.length - n)).length = buf.length - n := by
    rw [List.length_take, List.length_drop]
    omega
  rw [List.take_left' hseg, List.drop_take]

/-- Capacity never shrinks along any operation sequence. -/
theorem applyOps_cap_mono : ∀ (ops : List BufOp) (buf : DynamicBuf),
    buf.data.length ≤ (applyOps buf ops).data.length := by
  intro ops
  induction ops with
  | nil => intro buf; exact le_rfl
  | cons op ops ih =>
    intro buf
    cases op with
    | push d => exact le_trans (bufferPush_cap_mono buf d) (ih (bufferPush buf d))
    | pop n =>
      calc buf.data.length = (bufferPop buf n).data.length := (bufferPop_cap buf n).symm
        _ ≤ _ := ih (bufferPop buf n)

/-- Claim C9 (amended): for every operation sequence respecting the
no-over-pop precondition, starting from any well-formed buffer whose
capacity is zero or a power-of-two multiple of the 32-byte floor (the
repo always starts from a zero-capacity buffer), the buffered content
equals the mathematical queue of pushed-minus-popped bytes; the
capacity stays zero or a power-of-two multiple of the 32-byte floor
(zero until the first growth, so not always a power-of-two multiple)
and is at least the maximum length ever held. -/
theorem buffer_queue_and_capacity_invariant :
    ∀ (ops : List BufOp) (buf : DynamicBuf),
      buf.length ≤ buf.data.length →
      (buf.data.length = 0 ∨ ∃ k, buf.data.length = 32 * 2 ^ k) →
      validOps buf ops = true →
      ((applyOps buf ops).data.take (applyOps buf ops).length =
         queueRun (buf.data.take buf.length) ops ∧
       (applyOps buf ops).length ≤ (applyOps buf ops).data.length ∧
       ((applyOps buf ops).data.length = 0 ∨ ∃ k, (applyOps buf ops).data.length = 32 * 2 ^ k) ∧
       queueLens buf.length ops ≤ (applyOps buf ops).data.length) := by
  intro ops
  induction ops with
  | nil =>
    intro buf hwf hform _
    exact ⟨rfl, hwf, hform, hwf⟩
  | cons op ops ih =>
    intro buf hwf hform hvalid
    cases op with
    | push d =>
      have hwf2 : (bufferPush buf d).length ≤ (bufferPush buf d).data.length := by
        rw [bufferPush_length]
        exact bufferPush_cap_ge buf d
      have hform2 := bufferPush_cap_form buf d hform
      have hvalid2 : validOps (bufferPush buf d) ops = true := hvalid
      obtain ⟨hc, hl, hf, hq⟩ := ih (bufferPush buf d) hwf2 hform2 hvalid2
      refine ⟨?_, hl, hf, ?_⟩
      · show (applyOps (bufferPush buf d) ops).data.take (applyOps (bufferPush buf d) ops).length =
          queueRun (buf.data.take buf.length ++ d) ops
        rw [hc]
        congr 1
        rw [bufferPush_length, bufferPush_content buf d hwf]
      · show max buf.length (queueLens (buf.length + d.length) ops) ≤
          (applyOps (bufferPush buf d) ops).data.length
        have h1 : buf.length ≤ (applyOps (bufferPush buf d) ops).data.length :=
          le_trans (le_trans hwf (bufferPush_cap_mono buf d))
            (applyOps_cap_mono ops (bufferPush buf d))
        have h2 := hq
        rw [bufferPush_length] at h2
        exact max_le h1 h2
    | pop n =>
      have hvn : n ≤ buf.length ∧ validOps (bufferPop buf n) ops = true := by
        simpa [validOps, Bool.and_eq_true, decide_eq_true_eq] using hvalid
      have hwf2 : (bufferPop buf n).length ≤ (bufferPop buf n).data.length := by
        rw [bufferPop_length, bufferPop_cap]
        omega
      have hform2 : (bufferPop buf n).data.length = 0 ∨
          ∃ k, (bufferPop buf n).data.length = 32 * 2 ^ k := by
        rw [bufferPop_cap]
        exact hform
      obtain ⟨hc, hl, hf, hq⟩ := ih (bufferPop buf n) hwf2 hform2 hvn.2
      refine ⟨?_, hl, hf, ?_⟩
      · show (applyOps (bufferPop buf n) ops).data.take (applyOps (bufferPop buf n) ops).length =
          queueRun ((buf.data.take buf.length).drop n) ops
        rw [hc]
        congr 1
        rw [bufferPop_length, bufferPop_content buf n hvn.1 hwf]
      · show max buf.length (queueLens (buf.length - n) ops) ≤
          (applyOps (bufferPop buf n) ops).data.length
        have h1 : buf.length ≤ (applyOps (bufferPop buf n) ops).data.length := by
          calc buf.length ≤ buf.data.length := hwf
            _ = (bufferPop buf n).data.length := (bufferPop_cap buf n).symm
            _ ≤ _ := applyOps_cap_mono ops (bufferPop buf n)
        have h2 := hq
        rw [bufferPop_length] at h2
        exact max_le h1 h2

/-- Claim C9 (counterexample): from the zero-capacity buffer the serve
loop allocates, the empty push is a valid operation sequence after
which the capacity is 0, which is not a power-of-two multiple of the
32-byte floor, refuting the always clause of the claim. -/
theorem buffer_capacity_zero_counterexample :
    validOps ⟨[], 0⟩ [.push []] = true ∧
    (applyOps ⟨[], 0⟩ [.push []]).data.length = 0 ∧
    ¬ ∃ k, (applyOps ⟨[], 0⟩ [.push []]).data.length = 32 * 2 ^ k := by
  refine ⟨rfl, rfl, fun ⟨k, h⟩ => ?_⟩
  rw [show (applyOps ⟨[], 0⟩ [BufOp.push []]).data.length = 0 from rfl] at h
  have : 0 < 32 * 2 ^ k := Nat.mul_pos (by omega) (Nat.pos_pow_of_pos k (by omega))
  omega

/-- Claim C9 (witness): the queue and capacity invariant evaluated on a
concrete sequence of pushes and pops from the zero-capacity buffer. -/
theorem buffer_queue_witness :
    (applyOps ⟨[], 0⟩ [.push (strB "hello"), .pop 2, .push (strB " world")]).data.take
        (applyOps ⟨[], 0⟩ [.push (strB "hello"), .pop 2, .push (strB " world")]).length =
      queueRun ((⟨[], 0⟩ : DynamicBuf).data.take 0)
        [.push (strB "hello"), .pop 2, .push (strB " world")] ∧
    (applyOps ⟨[], 0⟩ [.push (strB "hello"), .pop 2, .push (strB " world")]).length ≤
      (applyOps ⟨[], 0⟩ [.push (strB "hello"), .pop 2, .push (strB " world")]).data.length ∧
    ((applyOps ⟨[], 0⟩ [.push (strB "hello"), .pop 2, .push (strB " world")]).data.length = 0 ∨
     ∃ k, (applyOps ⟨[], 0⟩
        [.push (strB "hello"), .pop 2, .push (strB " world")]).data.length = 32 * 2 ^ k) ∧
    queueLens 0 [.push (strB "hello"), .pop 2, .push (strB " world")] ≤
      (applyOps ⟨[], 0⟩ [.push (strB "hello"), .pop 2, .push (strB " world")]).data.length :=
  buffer_queue_and_capacity_invariant
    [.push (strB "hello"), .pop 2, .push (strB " world")] ⟨[], 0⟩
    (by decide) (Or.inl rfl) (by decide)

end WebServer
